import Mathlib

/-!
Shallow embedding of `web-timing-safe-equal` (src/unnamed/part_000),
a timing-safe comparison library built on the "double HMAC verification"
pattern over the WebCrypto SubtleCrypto API.

The embedding models:
* JS runtime values that can reach the public API (`JsValue`);
* the four supported hash algorithm identifiers (`Alg`) together with
  arbitrary algorithm strings, validated by `validateAlgorithm`;
* `validateValueOrConvertToUint8Array` (string → UTF-8 bytes, Uint8Array
  passed through, everything else throws);
* the injected SubtleCrypto provider (`providerGenerateKey`,
  `providerImportKey`, `providerSign`), modelled deterministically — the
  library treats it as an external capability, so only the properties the
  spec ascribes to it (determinism, digest length fixed by the key's bound
  hash) are reflected;
* an operation trace (`ProviderOp`) recording every provider call a code
  path performs, so "no cryptographic work happens on this path" claims
  become statements about the trace;
* `hmac`, `generateSecretKey` and `webTimingSafeEqual` themselves,
  translated statement by statement from the source, including the
  object-spread expressions on the `generateSecretKey` call site
  (modelled via `PropKey` property lists, since spreading a JS string
  or number contributes only array-index properties).

Errors thrown by the JS code are modelled with `Except Err`; a function
that can both throw and perform provider calls returns
`Except Err α × List ProviderOp`, the trace listing the provider
operations performed before returning or throwing.
-/

deriving instance DecidableEq for Except

/-- The four supported hash algorithm identifiers
(`allowedAlgorithms`, src lines 166–173). -/
inductive Alg
  | SHA1
  | SHA256
  | SHA384
  | SHA512
deriving DecidableEq, Repr

/-- Parse an algorithm string into one of the four supported identifiers. -/
def Alg.ofString : String → Option Alg
  | "SHA-1" => some .SHA1
  | "SHA-256" => some .SHA256
  | "SHA-384" => some .SHA384
  | "SHA-512" => some .SHA512
  | _ => none

/-- Errors thrown by the library: `Invalid hash algorithm: '...'`
(src line 171) and `Invalid comparison value: ...` (src lines 189–191). -/
inductive Err
  | invalidAlgorithm (algorithm : String)
  | invalidInputType
deriving DecidableEq, Repr

/-- A WebCrypto `CryptoKey` as the library observes it: HMAC key material
bound to a hash algorithm.  WebCrypto binds the hash at `generateKey` /
`importKey` time and `sign("HMAC", key, msg)` uses the key's bound hash. -/
structure CryptoKey where
  hash : Alg
  keyData : List Nat
deriving DecidableEq, Repr

/-- JS runtime values that can reach the library's parameters. -/
inductive JsValue
  | str (s : String)
  | bytes (b : List Nat)
  | key (k : CryptoKey)
  | number (n : Int)
  | bool (b : Bool)
  | undefined
  | null
deriving DecidableEq, Repr

/-- JS truthiness of a `JsValue`: `""`, `0`, `false`, `undefined` and
`null` are falsy; every object (`Uint8Array`, `CryptoKey`) is truthy. -/
def JsValue.truthy : JsValue → Bool
  | .str s => s ≠ ""
  | .bytes _ => true
  | .key _ => true
  | .number n => n ≠ 0
  | .bool b => b
  | .undefined => false
  | .null => false

/-- `allowedAlgorithms` (src line 168). -/
def allowedAlgorithms : List String := ["SHA-1", "SHA-256", "SHA-384", "SHA-512"]

/-- `validateAlgorithm` (src lines 166–173): throws
`Invalid hash algorithm` unless the string is one of the four supported
identifiers.  Pure: no provider call, no state. -/
def validateAlgorithm (algorithm : String) : Except Err Unit :=
  if allowedAlgorithms.contains algorithm then
    .ok ()
  else
    .error (.invalidAlgorithm algorithm)

/-- UTF-8 encoding of a JS string, as `new TextEncoder().encode(value)`
produces it (src lines 194–195). -/
def utf8Encode (s : String) : List Nat :=
  s.toUTF8.data.toList.map (fun b => b.toNat)

/-- `validateValueOrConvertToUint8Array` (src lines 180–198): a string is
UTF-8 encoded, a `Uint8Array` is returned unchanged, anything else throws
`Invalid comparison value`. -/
def validateValueOrConvertToUint8Array (value : JsValue) : Except Err (List Nat) :=
  match value with
  | .str s => .ok (utf8Encode s)
  | .bytes b => .ok b
  | _ => .error .invalidInputType

/-- Digest size in bytes of each supported hash; the HMAC signature over
any message has exactly this many bytes. -/
def digestLength : Alg → Nat
  | .SHA1 => 20
  | .SHA256 => 32
  | .SHA384 => 48
  | .SHA512 => 64

/-- Provider operations, recorded in the order the code performs them. -/
inductive ProviderOp
  | generateKey (hash : Alg) (lengthBits : Option Int)
  | importKey (keyData : List Nat) (hash : Alg)
  | sign (keyHash : Alg) (keyData : List Nat) (message : List Nat)
deriving DecidableEq, Repr

/-- Does a trace entry record an HMAC signing operation? -/
def ProviderOp.isSign : ProviderOp → Bool
  | .sign _ _ _ => true
  | _ => false

/-- Does a trace entry record a key import? -/
def ProviderOp.isImportKey : ProviderOp → Bool
  | .importKey _ _ => true
  | _ => false

/-- Does a trace entry record a key generation? -/
def ProviderOp.isGenerateKey : ProviderOp → Bool
  | .generateKey _ _ => true
  | _ => false

/-- Modelled from the spec: the provider's `generateKey(algorithm,
keyLengthBits)` returns a fresh key handle bound to `algorithm`.  The key
material is drawn from a secure random source, which a pure model cannot
reproduce; no claim depends on the material, so it is modelled as a zero
block of the requested size (WebCrypto defaults to the hash block size
when no length is given). -/
def providerGenerateKey (hash : Alg) (lengthBits : Option Int) : CryptoKey :=
  let defaultBits : Int :=
    match hash with
    | .SHA1 => 512
    | .SHA256 => 512
    | .SHA384 => 1024
    | .SHA512 => 1024
  let bits := lengthBits.getD defaultBits
  { hash := hash, keyData := List.replicate (bits.toNat / 8) 0 }

/-- Modelled from the spec: the provider's `importKey(rawBytes, algorithm)`
returns a key handle holding the raw bytes, bound to `algorithm`. -/
def providerImportKey (keyData : List Nat) (hash : Alg) : CryptoKey :=
  { hash := hash, keyData := keyData }

/-- Modelled from the spec: the provider's `sign(HMAC, key, message)` is a
deterministic function of the key and the message whose output has exactly
`digestLength key.hash` bytes, each below 256 — the properties the spec
ascribes to an HMAC digest.  The mixing formula is a stand-in for the real
HMAC; only determinism, the length, and the byte bound are ever used. -/
def providerSign (k : CryptoKey) (message : List Nat) : List Nat :=
  (List.range (digestLength k.hash)).map
    (fun i => (k.keyData.sum + 31 * message.sum + 7 * i + message.length) % 256)

/-- `b.toString(16)`: base-16 rendering of a byte, lowercase digits. -/
def toHexString (b : Nat) : String :=
  String.mk (Nat.toDigits 16 b)

/-- `.padStart(2, "0")` (src line 125). -/
def padStartTwoZero (s : String) : String :=
  if s.length < 2 then String.mk (List.replicate (2 - s.length) '0') ++ s else s

/-- One byte of the digest as the code renders it:
`b.toString(16).padStart(2, "0")` (src line 125). -/
def byteToHex (b : Nat) : String :=
  padStartTwoZero (toHexString b)

/-- The hex rendering of the whole signature (src lines 123–126):
`Array.from(new Uint8Array(signature)).map(byteToHex).join("")`. -/
def hexEncode (bytes : List Nat) : String :=
  String.join (bytes.map byteToHex)

/-- The options bag of `generateSecretKey` (src lines 138–141): JS
destructuring `{keyLength = 64, algorithm = "SHA-256"} = {}` substitutes
the default exactly when the property is absent (`undefined`). -/
structure GenKeyOptions where
  keyLength : Option Int := none
  algorithm : Option String := none
deriving DecidableEq, Repr

/-- `generateSecretKey` (src lines 138–159): apply the destructuring
defaults, validate the algorithm (throwing before any provider work), then
ask the provider for an HMAC key bound to the algorithm with
`length: keyLength * 8` bits when `keyLength` is truthy, usable for
signing. -/
def generateSecretKey (opts : GenKeyOptions) : Except Err CryptoKey × List ProviderOp :=
  let keyLength : Int := opts.keyLength.getD 64
  let algorithm : String := opts.algorithm.getD "SHA-256"
  match validateAlgorithm algorithm with
  | .error e => (.error e, [])
  | .ok _ =>
    match Alg.ofString algorithm with
    | none => (.error (.invalidAlgorithm algorithm), [])
    | some a =>
      let lengthBits : Option Int := if keyLength ≠ 0 then some (keyLength * 8) else none
      (.ok (providerGenerateKey a lengthBits), [.generateKey a lengthBits])

/-- `hmac` after its algorithm argument has been validated and parsed
(src lines 92–128): convert the message, then — keyed on whether the
secret key's runtime constructor is named `CryptoKey` — either sign with
the supplied key handle directly, or coerce the key to bytes and import it
bound to the call's hash algorithm before signing.  The hex rendering of
the signature is returned. -/
def hmacValidated (secretKey message : JsValue) (a : Alg) : Except Err String × List ProviderOp :=
  match validateValueOrConvertToUint8Array message with
  | .error e => (.error e, [])
  | .ok messageU =>
    match secretKey with
    | .key k =>
      (.ok (hexEncode (providerSign k messageU)),
        [.sign k.hash k.keyData messageU])
    | v =>
      match validateValueOrConvertToUint8Array v with
      | .error e => (.error e, [])
      | .ok keyU =>
        let k := providerImportKey keyU a
        (.ok (hexEncode (providerSign k messageU)),
          [.importKey keyU a, .sign k.hash k.keyData messageU])

/-- `hmac` (src lines 88–129).  `validateAlgorithm` runs first; the
`Alg.ofString` branch merely names the parsed algorithm and cannot fail
once validation has passed (`validateAlgorithm_ofString` below). -/
def hmac (secretKey message : JsValue) (algorithm : String := "SHA-256") :
    Except Err String × List ProviderOp :=
  match validateAlgorithm algorithm with
  | .error e => (.error e, [])
  | .ok _ =>
    match Alg.ofString algorithm with
    | none => (.error (.invalidAlgorithm algorithm), [])
    | some a => hmacValidated secretKey message a

/-- A JS object property key: array-index keys (the own enumerable keys a
string contributes when spread) are distinct from every named key such as
`keyLength` or `algorithm`. -/
inductive PropKey
  | index (i : Nat)
  | named (s : String)
deriving DecidableEq, Repr

/-- Own enumerable properties contributed by spreading a JS string into an
object literal: one array-index property per character, nothing else. -/
def spreadStringProps (s : String) : List (PropKey × JsValue) :=
  (List.range s.length).map (fun i => (.index i, .str (String.mk (s.toList.drop i |>.take 1))))

/-- Own enumerable properties contributed by spreading a JS number into an
object literal: none (a primitive number has no own enumerable keys). -/
def spreadNumberProps (_ : Int) : List (PropKey × JsValue) := []

/-- Property lookup in an object literal built from spreads; later spreads
override earlier ones. -/
def lookupProp (props : List (PropKey × JsValue)) (k : PropKey) : Option JsValue :=
  (props.reverse.find? (fun p => p.1 == k)).map (fun p => p.2)

/-- The options bag of `webTimingSafeEqual` (src lines 33–48). -/
structure Options where
  secretKey : Option JsValue := none
  keyLength : Option Int := none
  keyAlgorithm : Option String := none
  hmacAlgorithm : Option String := none
deriving DecidableEq, Repr

/-- JS truthiness of `options?.keyAlgorithm` / `options?.hmacAlgorithm`:
present and not the empty string. -/
def truthyStrOpt : Option String → Bool
  | some s => s ≠ ""
  | none => false

/-- JS truthiness of `options.keyLength`: present and nonzero. -/
def truthyIntOpt : Option Int → Bool
  | some n => n ≠ 0
  | none => false

/-- The object literal the comparator passes to `generateSecretKey`
(src lines 45–48):
`{...(options.keyAlgorithm ? options.keyAlgorithm : {}),
   ...(options.keyLength ? options.keyLength : {})}`.
Each spread operand is the option value itself — a string or a number —
so the spreads contribute index properties (from the string) or nothing
(from the number), never a `keyLength` or `algorithm` property. -/
def genKeyCallProps (options : Options) : List (PropKey × JsValue) :=
  (if truthyStrOpt options.keyAlgorithm then
    spreadStringProps (options.keyAlgorithm.getD "")
  else []) ++
  (if truthyIntOpt options.keyLength then
    spreadNumberProps (options.keyLength.getD 0)
  else [])

/-- Read the object literal back through `generateSecretKey`'s
destructuring pattern: a `keyLength` property that is a number and an
`algorithm` property that is a string (absent properties give `none`, so
the destructuring defaults apply). -/
def genKeyOptionsOfProps (props : List (PropKey × JsValue)) : GenKeyOptions :=
  { keyLength :=
      match lookupProp props (.named "keyLength") with
      | some (.number n) => some n
      | _ => none,
    algorithm :=
      match lookupProp props (.named "algorithm") with
      | some (.str s) => some s
      | _ => none }

/-- Key resolution (src lines 43–48):
`options?.secretKey || (await generateSecretKey({...}))` — a truthy
supplied key is used as is, otherwise a key is generated from the spread
object literal. -/
def resolveSecretKey (options : Options) : Except Err JsValue × List ProviderOp :=
  let supplied := options.secretKey.getD .undefined
  if supplied.truthy then
    (.ok supplied, [])
  else
    match generateSecretKey (genKeyOptionsOfProps (genKeyCallProps options)) with
    | (.ok k, ops) => (.ok (.key k), ops)
    | (.error e, ops) => (.error e, ops)

/-- The algorithm argument the comparator passes to each `hmac` call
(src lines 69 and 74): the caller's `hmacAlgorithm` when truthy, otherwise
`undefined`, on which `hmac`'s own default `"SHA-256"` kicks in. -/
def hmacAlgArg (options : Options) : String :=
  if truthyStrOpt options.hmacAlgorithm then options.hmacAlgorithm.getD "" else "SHA-256"

/-- `webTimingSafeEqual` (src lines 33–79), step by step:
1. validate `options.keyAlgorithm` and `options.hmacAlgorithm` when truthy;
2. resolve the secret key (`resolveSecretKey`);
3. convert `left` and `right` to byte sequences;
4. return `false` when the lengths differ or the left length is zero;
5. otherwise compute both HMAC digests (`Promise.all`: both run, either
   failure aborts the call) and
6. return the `===` comparison of the two hex strings. -/
def webTimingSafeEqual (left right : JsValue) (options : Options := {}) :
    Except Err Bool × List ProviderOp :=
  match (if truthyStrOpt options.keyAlgorithm then
          validateAlgorithm (options.keyAlgorithm.getD "") else .ok ()) with
  | .error e => (.error e, [])
  | .ok _ =>
  match (if truthyStrOpt options.hmacAlgorithm then
          validateAlgorithm (options.hmacAlgorithm.getD "") else .ok ()) with
  | .error e => (.error e, [])
  | .ok _ =>
  match resolveSecretKey options with
  | (.error e, keyOps) => (.error e, keyOps)
  | (.ok secretKey, keyOps) =>
  match validateValueOrConvertToUint8Array left with
  | .error e => (.error e, keyOps)
  | .ok leftU =>
  match validateValueOrConvertToUint8Array right with
  | .error e => (.error e, keyOps)
  | .ok rightU =>
  if leftU.length ≠ rightU.length ∨ leftU.length = 0 then
    (.ok false, keyOps)
  else
    let leftRun := hmac secretKey (.bytes leftU) (hmacAlgArg options)
    let rightRun := hmac secretKey (.bytes rightU) (hmacAlgArg options)
    match leftRun.1, rightRun.1 with
    | .ok leftHMAC, .ok rightHMAC =>
      (.ok (leftHMAC == rightHMAC), keyOps ++ leftRun.2 ++ rightRun.2)
    | .error e, _ => (.error e, keyOps ++ leftRun.2 ++ rightRun.2)
    | .ok _, .error e => (.error e, keyOps ++ leftRun.2 ++ rightRun.2)

/-- The hash algorithm that actually governs an `hmac` call's signature:
the key handle's bound algorithm when a `CryptoKey` is supplied (the
`sign` call never sees the `algorithm` argument), the call's parsed
algorithm otherwise (raw key material is imported bound to it). -/
def effectiveAlg (secretKey : JsValue) (algorithm : String) : Alg :=
  match secretKey with
  | .key k => k.hash
  | _ => (Alg.ofString algorithm).getD .SHA256

/-- Values `hmac` accepts as its secret key: a `CryptoKey` handle, or raw
text / byte material that can be coerced and imported. -/
def usableHmacKey : JsValue → Bool
  | .str _ => true
  | .bytes _ => true
  | .key _ => true
  | _ => false

/-!
## General lemmas about the embedding
-/

set_option maxRecDepth 8000

/-- A string passing `validateAlgorithm` parses to one of the four
supported identifiers. -/
theorem ofString_some_of_validate {s : String} (h : validateAlgorithm s = .ok ()) :
    ∃ a, Alg.ofString s = some a := by
  have hm : s ∈ allowedAlgorithms := by
    unfold validateAlgorithm at h
    split at h
    · next hc => simpa using hc
    · cases h
  simp only [allowedAlgorithms, List.mem_cons, List.mem_singleton] at hm
  rcases hm with rfl | rfl | rfl | rfl | h4
  · exact ⟨.SHA1, rfl⟩
  · exact ⟨.SHA256, rfl⟩
  · exact ⟨.SHA384, rfl⟩
  · exact ⟨.SHA512, rfl⟩
  · cases h4

/-- Conversely, a string that parses to a supported identifier passes
`validateAlgorithm`. -/
theorem validate_ok_of_ofString {s : String} {a : Alg} (h : Alg.ofString s = some a) :
    validateAlgorithm s = .ok () := by
  unfold Alg.ofString at h
  split at h <;> first
    | rfl
    | cases h

/-- `generateSecretKey` on an empty options bag: the destructuring
defaults 64 and `"SHA-256"` apply, so the provider is asked for a 512-bit
SHA-256 HMAC key. -/
theorem generateSecretKey_default :
    generateSecretKey {} =
      (.ok (providerGenerateKey .SHA256 (some 512)), [.generateKey .SHA256 (some 512)]) := by
  decide

/-- Spreading a JS string into an object literal contributes only
array-index properties, so looking up any named property gives nothing. -/
theorem lookupProp_spreadString_named (s : String) (n : String) :
    lookupProp (spreadStringProps s) (.named n) = none := by
  unfold lookupProp
  have hfind :
      List.find? (fun p => p.1 == PropKey.named n) (spreadStringProps s).reverse = none := by
    rw [List.find?_eq_none]
    intro p hp
    rw [List.mem_reverse] at hp
    unfold spreadStringProps at hp
    obtain ⟨i, _, rfl⟩ := List.mem_map.mp hp
    simp
  rw [hfind]
  rfl

/-- Property lookup in the empty object literal gives nothing. -/
theorem lookupProp_nil (k : PropKey) : lookupProp [] k = none := rfl

/-- The object literal `webTimingSafeEqual` passes to `generateSecretKey`
never carries a `keyLength` or `algorithm` property, whatever the caller
requested: the spread of a string or number cannot produce named keys, so
the destructured options are always the defaults. -/
theorem genKeyOptions_always_default (options : Options) :
    genKeyOptionsOfProps (genKeyCallProps options) = {} := by
  unfold genKeyOptionsOfProps genKeyCallProps
  by_cases h1 : truthyStrOpt options.keyAlgorithm <;>
    by_cases h2 : truthyIntOpt options.keyLength <;>
      simp [h1, h2, spreadNumberProps, lookupProp_spreadString_named, lookupProp_nil]

/-- Key resolution with an absent or falsy `options.secretKey` always
generates the default 64-byte SHA-256 key. -/
theorem resolveSecretKey_untruthy (options : Options)
    (h : (options.secretKey.getD .undefined).truthy = false) :
    resolveSecretKey options =
      (.ok (.key (providerGenerateKey .SHA256 (some 512))),
        [.generateKey .SHA256 (some 512)]) := by
  simp [resolveSecretKey, h, genKeyOptions_always_default, generateSecretKey_default]

/-- Key resolution with a truthy `options.secretKey` returns it unchanged
and performs no provider call. -/
theorem resolveSecretKey_truthy (options : Options)
    (h : (options.secretKey.getD .undefined).truthy = true) :
    resolveSecretKey options = (.ok (options.secretKey.getD .undefined), []) := by
  simp [resolveSecretKey, h]

/-- Whatever the byte value below 256, the rendered hex pair has exactly
two characters, each a lowercase hex digit. -/
theorem byteToHex_check :
    (List.range 256).all
      (fun b => (byteToHex b).length == 2 &&
        (byteToHex b).data.all (fun c => "0123456789abcdef".data.contains c)) = true := by
  decide

/-- `b.toString(16).padStart(2, "0")` has exactly two characters for a
byte value. -/
theorem byteToHex_length {b : Nat} (h : b < 256) : (byteToHex b).length = 2 := by
  have := List.all_eq_true.mp byteToHex_check b (List.mem_range.mpr h)
  exact eq_of_beq (Bool.and_eq_true_iff.mp this).1

/-- Every character of a rendered hex pair is a lowercase hex digit. -/
theorem byteToHex_chars {b : Nat} (h : b < 256) :
    ∀ c ∈ (byteToHex b).data, c ∈ "0123456789abcdef".data := by
  have := (Bool.and_eq_true_iff.mp (List.all_eq_true.mp byteToHex_check b (List.mem_range.mpr h))).2
  intro c hc
  have := List.all_eq_true.mp this c hc
  simpa using this

/-- Folding string concatenation from an arbitrary accumulator. -/
theorem string_foldl_append (l : List String) (a : String) :
    l.foldl (· ++ ·) a = a ++ l.foldl (· ++ ·) "" := by
  induction l generalizing a with
  | nil => simp
  | cons x xs ih =>
    simp only [List.foldl_cons]
    rw [ih (a ++ x), ih ("" ++ x), String.empty_append, String.append_assoc]

/-- `String.join` peels off its head summand. -/
theorem string_join_cons (s : String) (l : List String) :
    String.join (s :: l) = s ++ String.join l := by
  simp only [String.join, List.foldl_cons, String.empty_append]
  exact string_foldl_append l s

/-- The hex rendering of a byte list, digit pair by digit pair. -/
theorem hexEncode_cons (b : Nat) (bs : List Nat) :
    hexEncode (b :: bs) = byteToHex b ++ hexEncode bs := by
  simp only [hexEncode, List.map_cons]
  exact string_join_cons _ _

/-- A digest of bytes renders to exactly two hex characters per byte. -/
theorem hexEncode_length {bytes : List Nat} (h : ∀ b ∈ bytes, b < 256) :
    (hexEncode bytes).length = 2 * bytes.length := by
  induction bytes with
  | nil => rfl
  | cons b bs ih =>
    rw [hexEncode_cons, String.length_append, byteToHex_length (h b (by simp)),
      ih (fun x hx => h x (by simp [hx]))]
    simp only [List.length_cons]
    omega

/-- Every character of a rendered digest is a lowercase hex digit. -/
theorem hexEncode_chars {bytes : List Nat} (h : ∀ b ∈ bytes, b < 256) :
    ∀ c ∈ (hexEncode bytes).data, c ∈ "0123456789abcdef".data := by
  induction bytes with
  | nil => intro c hc; cases hc
  | cons b bs ih =>
    intro c hc
    rw [hexEncode_cons, String.data_append, List.mem_append] at hc
    rcases hc with hc | hc
    · exact byteToHex_chars (h b (by simp)) c hc
    · exact ih (fun x hx => h x (by simp [hx])) c hc

/-- The provider signature has exactly the digest length of the key's
bound hash. -/
theorem providerSign_length (k : CryptoKey) (message : List Nat) :
    (providerSign k message).length = digestLength k.hash := by
  simp [providerSign]

/-- Every provider signature byte is below 256. -/
theorem providerSign_lt (k : CryptoKey) (message : List Nat) :
    ∀ b ∈ providerSign k message, b < 256 := by
  intro b hb
  unfold providerSign at hb
  obtain ⟨i, _, rfl⟩ := List.mem_map.mp hb
  exact Nat.mod_lt _ (by decide)

/-- Hex length of a rendered provider signature: two characters per
digest byte of the key's bound hash. -/
theorem hexEncode_sign_length (k : CryptoKey) (u : List Nat) :
    (hexEncode (providerSign k u)).length = 2 * digestLength k.hash := by
  rw [hexEncode_length (providerSign_lt k u), providerSign_length]

/-- Every character of a rendered provider signature is a lowercase hex
digit. -/
theorem hexEncode_sign_chars (k : CryptoKey) (u : List Nat) :
    ∀ c ∈ (hexEncode (providerSign k u)).data, c ∈ "0123456789abcdef".data :=
  hexEncode_chars (providerSign_lt k u)

/-- `hmac` on a `CryptoKey` handle: the handle is signed with directly —
no validation of the key, no import, and the call's algorithm plays no
further role. -/
theorem hmac_on_cryptoKey (k : CryptoKey) (msg : JsValue) (alg : String) (a : Alg)
    (ha : Alg.ofString alg = some a) (u : List Nat)
    (hm : validateValueOrConvertToUint8Array msg = .ok u) :
    hmac (.key k) msg alg =
      (.ok (hexEncode (providerSign k u)), [.sign k.hash k.keyData u]) := by
  simp only [hmac, validate_ok_of_ofString ha, ha, hmacValidated, hm]

/-- `hmac` on raw key material (text or bytes): the material is coerced,
imported bound to the call's algorithm, and then signed with. -/
theorem hmac_on_raw_key (sk msg : JsValue) (alg : String) (a : Alg)
    (ha : Alg.ofString alg = some a) (u kb : List Nat)
    (hm : validateValueOrConvertToUint8Array msg = .ok u)
    (hk : validateValueOrConvertToUint8Array sk = .ok kb) :
    hmac sk msg alg =
      (.ok (hexEncode (providerSign (providerImportKey kb a) u)),
        [.importKey kb a, .sign a kb u]) := by
  have hv := validate_ok_of_ofString ha
  cases sk with
  | str s =>
    obtain rfl : utf8Encode s = kb := by
      simpa [validateValueOrConvertToUint8Array] using hk
    have hks : validateValueOrConvertToUint8Array (.str s) = .ok (utf8Encode s) := rfl
    simp [hmac, hv, ha, hmacValidated, hm, hks, providerImportKey]
  | bytes b =>
    obtain rfl : b = kb := by
      simpa [validateValueOrConvertToUint8Array] using hk
    have hkb : validateValueOrConvertToUint8Array (.bytes b) = .ok b := rfl
    simp [hmac, hv, ha, hmacValidated, hm, hkb, providerImportKey]
  | key k => simp [validateValueOrConvertToUint8Array] at hk
  | number n => simp [validateValueOrConvertToUint8Array] at hk
  | bool b => simp [validateValueOrConvertToUint8Array] at hk
  | undefined => simp [validateValueOrConvertToUint8Array] at hk
  | null => simp [validateValueOrConvertToUint8Array] at hk

/-- `hmac` on a key value that is neither a `CryptoKey` nor coercible
text/bytes throws `InvalidInputType` with no provider operation. -/
theorem hmac_on_invalid_key (sk msg : JsValue) (alg : String) (a : Alg)
    (ha : Alg.ofString alg = some a) (u : List Nat)
    (hm : validateValueOrConvertToUint8Array msg = .ok u)
    (hk : usableHmacKey sk = false) :
    hmac sk msg alg = (.error .invalidInputType, []) := by
  have hv := validate_ok_of_ofString ha
  cases sk with
  | str s => simp [usableHmacKey] at hk
  | bytes b => simp [usableHmacKey] at hk
  | key k => simp [usableHmacKey] at hk
  | number n =>
    have hkn : validateValueOrConvertToUint8Array (.number n) = .error .invalidInputType := rfl
    simp [hmac, hv, ha, hmacValidated, hm, hkn]
  | bool b =>
    have hkn : validateValueOrConvertToUint8Array (.bool b) = .error .invalidInputType := rfl
    simp [hmac, hv, ha, hmacValidated, hm, hkn]
  | undefined =>
    have hkn : validateValueOrConvertToUint8Array .undefined = .error .invalidInputType := rfl
    simp [hmac, hv, ha, hmacValidated, hm, hkn]
  | null =>
    have hkn : validateValueOrConvertToUint8Array .null = .error .invalidInputType := rfl
    simp [hmac, hv, ha, hmacValidated, hm, hkn]

/-- `hmac` succeeds whenever its algorithm validates, the message is
text/bytes, and the key is usable. -/
theorem hmac_ok (sk : JsValue) (u : List Nat) (alg : String) (a : Alg)
    (ha : Alg.ofString alg = some a) (hsk : usableHmacKey sk = true) :
    ∃ s ops, hmac sk (.bytes u) alg = (.ok s, ops) := by
  have hm : validateValueOrConvertToUint8Array (.bytes u) = .ok u := rfl
  cases sk with
  | key k => exact ⟨_, _, hmac_on_cryptoKey k (.bytes u) alg a ha u hm⟩
  | str s => exact ⟨_, _, hmac_on_raw_key (.str s) (.bytes u) alg a ha u (utf8Encode s) hm rfl⟩
  | bytes b => exact ⟨_, _, hmac_on_raw_key (.bytes b) (.bytes u) alg a ha u b hm rfl⟩
  | number n => cases hsk
  | bool b => cases hsk
  | undefined => cases hsk
  | null => cases hsk

/-!
## Claim theorems
-/

/-- C5: `validateAlgorithm` succeeds exactly on the four supported
identifiers `SHA-1`, `SHA-256`, `SHA-384`, `SHA-512`, and on every other
value fails with `InvalidAlgorithm` naming the offending string; being a
plain function into `Except`, it performs no provider operation and has no
side effect. -/
theorem validateAlgorithm_closed_enumeration (algorithm : String) :
    (validateAlgorithm algorithm = .ok () ↔
      algorithm = "SHA-1" ∨ algorithm = "SHA-256" ∨
      algorithm = "SHA-384" ∨ algorithm = "SHA-512") ∧
    (validateAlgorithm algorithm = .ok () ∨
      validateAlgorithm algorithm = .error (.invalidAlgorithm algorithm)) := by
  constructor
  · constructor
    · intro h
      have hm : algorithm ∈ allowedAlgorithms := by
        unfold validateAlgorithm at h
        split at h
        · next hc => simpa using hc
        · cases h
      simpa [allowedAlgorithms] using hm
    · intro h
      rcases h with rfl | rfl | rfl | rfl <;> rfl
  · unfold validateAlgorithm
    by_cases hc : allowedAlgorithms.contains algorithm
    · left
      have hm : algorithm ∈ allowedAlgorithms := by simpa using hc
      simp [hm]
    · right
      have hm : algorithm ∉ allowedAlgorithms := by simpa using hc
      simp [hm]

/-- C6: `generateSecretKey` validates its algorithm before delegating:
with `"MD5"` it fails with `InvalidAlgorithm` and the provider trace is
empty (no key-generation work attempted); with `SHA-384` and a truthy
`keyLength` it performs exactly one provider `generateKey` call
requesting `keyLength * 8` bits bound to SHA-384 and returns the
resulting key handle. -/
theorem generateSecretKey_validates_then_delegates :
    generateSecretKey {algorithm := some "MD5"} =
      (.error (.invalidAlgorithm "MD5"), []) ∧
    ∀ n : Int, n ≠ 0 →
      generateSecretKey {keyLength := some n, algorithm := some "SHA-384"} =
        (.ok (providerGenerateKey .SHA384 (some (n * 8))),
          [.generateKey .SHA384 (some (n * 8))]) := by
  constructor
  · decide
  · intro n hn
    have hv : validateAlgorithm "SHA-384" = .ok () := by decide
    have ho : Alg.ofString "SHA-384" = some .SHA384 := rfl
    simp [generateSecretKey, hv, ho, hn]

/-- C6 witness: the spec's own example, `keyLength` 64 and `SHA-384`,
requests a 512-bit SHA-384 key. -/
theorem generateSecretKey_validates_then_delegates_witness :
    (64 : Int) ≠ 0 ∧
    generateSecretKey {keyLength := some 64, algorithm := some "SHA-384"} =
      (.ok (providerGenerateKey .SHA384 (some 512)),
        [.generateKey .SHA384 (some 512)]) :=
  ⟨by decide, generateSecretKey_validates_then_delegates.2 64 (by decide)⟩

/-- C8: `hmac` is deterministic — two calls with identical key, message
and algorithm (over the deterministic signing provider) return identical
results, hex string and trace alike. -/
theorem hmac_deterministic (secretKey message : JsValue) (algorithm : String)
    (r1 r2 : Except Err String × List ProviderOp)
    (h1 : hmac secretKey message algorithm = r1)
    (h2 : hmac secretKey message algorithm = r2) : r1 = r2 := by
  rw [← h1, ← h2]

/-- C8 witness: two identical concrete calls agree. -/
theorem hmac_deterministic_witness :
    (hmac (.str "key") (.str "msg") "SHA-256" = hmac (.str "key") (.str "msg") "SHA-256") ∧
    hmac (.str "key") (.str "msg") "SHA-256" = hmac (.str "key") (.str "msg") "SHA-256" :=
  ⟨hmac_deterministic (.str "key") (.str "msg") "SHA-256" _ _ rfl rfl, rfl⟩

/-- C1 (the claim fails in the code): when no truthy `secretKey` is
supplied, key resolution (src lines 43–48) spreads
`options.keyAlgorithm` (a string) and `options.keyLength` (a number)
directly into the object literal passed to `generateSecretKey`.  A spread
primitive contributes no `keyLength` or `algorithm` property, so the
generated key is always the default 64-byte (512-bit) SHA-256 key,
whatever the caller requested — contradicting the claim (and the
library's own JSDoc and README) that the caller's `keyLength` and
`keyAlgorithm` are used. -/
theorem generatedKey_ignores_requested_options (options : Options)
    (h : (options.secretKey.getD .undefined).truthy = false) :
    resolveSecretKey options =
      (.ok (.key (providerGenerateKey .SHA256 (some 512))),
        [.generateKey .SHA256 (some 512)]) :=
  resolveSecretKey_untruthy options h

/-- C1 witness, evaluating at the failing input: the caller requests a
32-byte SHA-384 key, yet the resolved key and the trace show a 512-bit
SHA-256 `generateKey` request. -/
theorem generatedKey_ignores_requested_options_witness :
    ((({keyLength := some 32, keyAlgorithm := some "SHA-384"} :
        Options).secretKey.getD .undefined).truthy = false) ∧
    resolveSecretKey {keyLength := some 32, keyAlgorithm := some "SHA-384"} =
      (.ok (.key (providerGenerateKey .SHA256 (some 512))),
        [.generateKey .SHA256 (some 512)]) :=
  ⟨rfl, generatedKey_ignores_requested_options _ rfl⟩

/-- C9: a supplied but falsy `options.secretKey` (for example the empty
string) is swallowed by the `||` in key resolution: a fresh default key is
generated, the run is indistinguishable from one with no `secretKey` at
all, and the falsy value itself is never the resolved key handed to the
HMAC computations. -/
theorem falsy_secretKey_regenerates (options : Options) (v : JsValue)
    (hv : options.secretKey = some v) (hfalsy : v.truthy = false) :
    resolveSecretKey options =
      (.ok (.key (providerGenerateKey .SHA256 (some 512))),
        [.generateKey .SHA256 (some 512)]) ∧
    (resolveSecretKey options).1 ≠ .ok v ∧
    ∀ left right, webTimingSafeEqual left right options =
      webTimingSafeEqual left right { options with secretKey := none } := by
  have hu : (options.secretKey.getD .undefined).truthy = false := by
    rw [hv]
    exact hfalsy
  refine ⟨resolveSecretKey_untruthy options hu, ?_, ?_⟩
  · rw [resolveSecretKey_untruthy options hu]
    intro hcontra
    have hvk : JsValue.key (providerGenerateKey .SHA256 (some 512)) = v := by
      injection hcontra
    rw [← hvk] at hfalsy
    simp [JsValue.truthy] at hfalsy
  · intro left right
    have hu' : (({ options with secretKey := none } :
        Options).secretKey.getD .undefined).truthy = false := rfl
    have hres : resolveSecretKey options =
        resolveSecretKey { options with secretKey := none } := by
      rw [resolveSecretKey_untruthy options hu,
        resolveSecretKey_untruthy _ hu']
    unfold webTimingSafeEqual
    rw [hres]
    rfl

/-- C9 witness: the empty string as `secretKey` behaves exactly like an
absent `secretKey`. -/
theorem falsy_secretKey_regenerates_witness :
    (({secretKey := some (.str "")} : Options).secretKey = some (.str "")) ∧
    ((JsValue.str "").truthy = false) ∧
    resolveSecretKey {secretKey := some (.str "")} =
      (.ok (.key (providerGenerateKey .SHA256 (some 512))),
        [.generateKey .SHA256 (some 512)]) ∧
    (resolveSecretKey {secretKey := some (.str "")}).1 ≠ .ok (.str "") ∧
    webTimingSafeEqual (.str "a") (.str "b") {secretKey := some (.str "")} =
      webTimingSafeEqual (.str "a") (.str "b")
        { ({secretKey := some (.str "")} : Options) with secretKey := none } := by
  obtain ⟨h1, h2, h3⟩ :=
    falsy_secretKey_regenerates {secretKey := some (.str "")} (.str "") rfl (by decide)
  exact ⟨rfl, by decide, h1, h2, h3 (.str "a") (.str "b")⟩

/-- C7 (the claim as stated fails): a `CryptoKey` bound to SHA-512
passed to `hmac` with `algorithm = "SHA-256"` yields a 128-character hex
string, not the 64 characters the claim assigns to SHA-256 — the `sign`
call never sees the `algorithm` argument, so the digest length follows
the key's bound hash. -/
theorem hmac_hex_length_counterexample :
    (hmac (.key ⟨.SHA512, [1, 2, 3]⟩) (.bytes [1]) "SHA-256").1 =
      .ok (hexEncode (providerSign ⟨.SHA512, [1, 2, 3]⟩ [1])) ∧
    (hexEncode (providerSign ⟨.SHA512, [1, 2, 3]⟩ [1])).length = 128 ∧
    (hexEncode (providerSign ⟨.SHA512, [1, 2, 3]⟩ [1])).length ≠ 64 := by
  refine ⟨by decide, by decide, by decide⟩

/-- C7 as amended: a successful `hmac` call returns the lowercase
hexadecimal rendering of the provider's signature, two zero-padded hex
digits per signature byte, so its length is exactly twice the digest byte
length of the effective algorithm — the call's algorithm when the key is
raw text or bytes, the key handle's bound algorithm when a `CryptoKey` is
supplied — and never depends on the message content. -/
theorem hmac_hex_spec (secretKey message : JsValue) (algorithm : String)
    (hex : String) (ops : List ProviderOp)
    (h : hmac secretKey message algorithm = (.ok hex, ops)) :
    hex.length = 2 * digestLength (effectiveAlg secretKey algorithm) ∧
    ∀ c ∈ hex.data, c ∈ "0123456789abcdef".data := by
  have hva : ∃ a, Alg.ofString algorithm = some a := by
    unfold hmac at h
    cases hv : validateAlgorithm algorithm with
    | error e => rw [hv] at h; simp at h
    | ok u => exact ofString_some_of_validate hv
  obtain ⟨a, ha⟩ := hva
  have hme : ∃ u, validateValueOrConvertToUint8Array message = .ok u := by
    unfold hmac at h
    rw [validate_ok_of_ofString ha, ha] at h
    unfold hmacValidated at h
    cases hm : validateValueOrConvertToUint8Array message with
    | error e => rw [hm] at h; simp at h
    | ok u => exact ⟨u, rfl⟩
  obtain ⟨u, hm⟩ := hme
  cases hsk : usableHmacKey secretKey with
  | false =>
    rw [hmac_on_invalid_key secretKey message algorithm a ha u hm hsk] at h
    simp at h
  | true =>
    cases secretKey with
    | key k =>
      rw [hmac_on_cryptoKey k message algorithm a ha u hm] at h
      obtain ⟨rfl, -⟩ : hexEncode (providerSign k u) = hex ∧ _ := by
        simpa using h
      exact ⟨hexEncode_sign_length k u, hexEncode_sign_chars k u⟩
    | str s =>
      rw [hmac_on_raw_key (.str s) message algorithm a ha u (utf8Encode s) hm rfl] at h
      obtain ⟨rfl, -⟩ :
          hexEncode (providerSign (providerImportKey (utf8Encode s) a) u) = hex ∧ _ := by
        simpa using h
      refine ⟨?_, hexEncode_sign_chars _ u⟩
      rw [hexEncode_sign_length]
      simp [providerImportKey, effectiveAlg, ha]
    | bytes b =>
      rw [hmac_on_raw_key (.bytes b) message algorithm a ha u b hm rfl] at h
      obtain ⟨rfl, -⟩ :
          hexEncode (providerSign (providerImportKey b a) u) = hex ∧ _ := by
        simpa using h
      refine ⟨?_, hexEncode_sign_chars _ u⟩
      rw [hexEncode_sign_length]
      simp [providerImportKey, effectiveAlg, ha]
    | number n => cases hsk
    | bool b => cases hsk
    | undefined => cases hsk
    | null => cases hsk

/-- C7 witness: a raw string key with SHA-256 gives 64 lowercase hex
characters. -/
theorem hmac_hex_spec_witness :
    hmac (.str "key") (.str "msg") "SHA-256" =
      (.ok (hexEncode (providerSign (providerImportKey (utf8Encode "key") .SHA256)
          (utf8Encode "msg"))),
        [.importKey (utf8Encode "key") .SHA256,
          .sign .SHA256 (utf8Encode "key") (utf8Encode "msg")]) ∧
    (hexEncode (providerSign (providerImportKey (utf8Encode "key") .SHA256)
        (utf8Encode "msg"))).length =
      2 * digestLength (effectiveAlg (.str "key") "SHA-256") ∧
    ∀ c ∈ (hexEncode (providerSign (providerImportKey (utf8Encode "key") .SHA256)
        (utf8Encode "msg"))).data, c ∈ "0123456789abcdef".data := by
  have h : hmac (.str "key") (.str "msg") "SHA-256" =
      (.ok (hexEncode (providerSign (providerImportKey (utf8Encode "key") .SHA256)
          (utf8Encode "msg"))),
        [.importKey (utf8Encode "key") .SHA256,
          .sign .SHA256 (utf8Encode "key") (utf8Encode "msg")]) := by decide
  obtain ⟨h1, h2⟩ := hmac_hex_spec (.str "key") (.str "msg") "SHA-256" _ _ h
  exact ⟨h, h1, h2⟩

/-- C10: `hmac` dispatches on whether the key's runtime constructor is
named `CryptoKey`: a `CryptoKey` is signed with unchanged (no import, the
call's algorithm unused); any other value must coerce to bytes, which are
imported bound to the call's algorithm before signing; a value that is
neither fails with `InvalidInputType` before any provider operation. -/
theorem hmac_key_dispatch (secretKey msg : JsValue) (alg : String) (a : Alg)
    (ha : Alg.ofString alg = some a) (u : List Nat)
    (hm : validateValueOrConvertToUint8Array msg = .ok u) :
    (∀ k : CryptoKey, secretKey = .key k →
      hmac secretKey msg alg =
        (.ok (hexEncode (providerSign k u)), [.sign k.hash k.keyData u])) ∧
    (∀ kb : List Nat, validateValueOrConvertToUint8Array secretKey = .ok kb →
      hmac secretKey msg alg =
        (.ok (hexEncode (providerSign (providerImportKey kb a) u)),
          [.importKey kb a, .sign a kb u])) ∧
    (usableHmacKey secretKey = false →
      hmac secretKey msg alg = (.error .invalidInputType, [])) := by
  refine ⟨?_, ?_, ?_⟩
  · rintro k rfl
    exact hmac_on_cryptoKey k msg alg a ha u hm
  · intro kb hk
    exact hmac_on_raw_key secretKey msg alg a ha u kb hm hk
  · intro hsk
    exact hmac_on_invalid_key secretKey msg alg a ha u hm hsk

/-- C10 witness: the three dispatch branches at concrete inputs — a
`CryptoKey` (bound to SHA-384, signed with as is despite the SHA-512
argument), raw bytes (imported bound to SHA-512), and a number
(rejected with no provider operation). -/
theorem hmac_key_dispatch_witness :
    hmac (.key ⟨.SHA384, [9]⟩) (.bytes [1, 2]) "SHA-512" =
      (.ok (hexEncode (providerSign ⟨.SHA384, [9]⟩ [1, 2])),
        [.sign .SHA384 [9] [1, 2]]) ∧
    hmac (.bytes [7]) (.bytes [1, 2]) "SHA-512" =
      (.ok (hexEncode (providerSign (providerImportKey [7] .SHA512) [1, 2])),
        [.importKey [7] .SHA512, .sign .SHA512 [7] [1, 2]]) ∧
    hmac (.number 5) (.bytes [1, 2]) "SHA-512" = (.error .invalidInputType, []) := by
  refine ⟨?_, ?_, ?_⟩
  · exact (hmac_key_dispatch (.key ⟨.SHA384, [9]⟩) (.bytes [1, 2]) "SHA-512" .SHA512
      rfl [1, 2] rfl).1 ⟨.SHA384, [9]⟩ rfl
  · exact (hmac_key_dispatch (.bytes [7]) (.bytes [1, 2]) "SHA-512" .SHA512
      rfl [1, 2] rfl).2.1 [7] rfl
  · exact (hmac_key_dispatch (.number 5) (.bytes [1, 2]) "SHA-512" .SHA512
      rfl [1, 2] rfl).2.2 rfl

/-- Key resolution never throws: either the truthy supplied key or a
freshly generated handle comes back. -/
theorem resolveSecretKey_ok (options : Options) :
    ∃ sk kops, resolveSecretKey options = (.ok sk, kops) := by
  cases hb : (options.secretKey.getD .undefined).truthy
  · exact ⟨_, _, resolveSecretKey_untruthy options hb⟩
  · exact ⟨_, _, resolveSecretKey_truthy options hb⟩

/-- The provider trace of key resolution: empty for a truthy supplied
key, one default `generateKey` call otherwise. -/
theorem resolveSecretKey_trace (options : Options) :
    (resolveSecretKey options).2 =
      if (options.secretKey.getD .undefined).truthy then []
      else [.generateKey .SHA256 (some 512)] := by
  cases hb : (options.secretKey.getD .undefined).truthy
  · rw [resolveSecretKey_untruthy options hb]
    simp [hb]
  · rw [resolveSecretKey_truthy options hb]
    simp [hb]

/-- The coercion's only error is `InvalidInputType`. -/
theorem validate_error_invalidInputType {v : JsValue} {e : Err}
    (h : validateValueOrConvertToUint8Array v = .error e) : e = .invalidInputType := by
  cases v <;> cases h <;> rfl

/-- The guarded algorithm validation at the top of `webTimingSafeEqual`
succeeds when the option is untruthy or validates. -/
theorem algOptValidation_ok (o : Option String)
    (h : truthyStrOpt o = true → validateAlgorithm (o.getD "") = .ok ()) :
    (if truthyStrOpt o = true then validateAlgorithm (o.getD "") else .ok ()) = .ok () := by
  by_cases ht : truthyStrOpt o = true
  · simp [ht, h ht]
  · simp [ht]

/-- The comparator's short-circuit: once both inputs coerce and the
length guard fires, the call returns `false` carrying only the key
resolution's trace. -/
theorem webTimingSafeEqual_shortcircuit (left right : JsValue) (options : Options)
    (lu ru : List Nat)
    (hl : validateValueOrConvertToUint8Array left = .ok lu)
    (hr : validateValueOrConvertToUint8Array right = .ok ru)
    (hcond : lu.length ≠ ru.length ∨ lu.length = 0)
    (h1 : truthyStrOpt options.keyAlgorithm = true →
      validateAlgorithm (options.keyAlgorithm.getD "") = .ok ())
    (h2 : truthyStrOpt options.hmacAlgorithm = true →
      validateAlgorithm (options.hmacAlgorithm.getD "") = .ok ()) :
    webTimingSafeEqual left right options = (.ok false, (resolveSecretKey options).2) := by
  obtain ⟨sk, kops, hres⟩ := resolveSecretKey_ok options
  have e1 := algOptValidation_ok options.keyAlgorithm h1
  have e2 := algOptValidation_ok options.hmacAlgorithm h2
  simp only [webTimingSafeEqual, e1, e2, hres, hl, hr]
  rw [if_pos hcond]

/-- C3: when the coerced byte sequences differ in length or either is
empty (src line 56 checks the left length, which under equal lengths
covers the right), the comparison returns `false` and the trace contains
no HMAC work — no signing and no key import. -/
theorem length_mismatch_returns_false (left right : JsValue) (options : Options)
    (lu ru : List Nat)
    (hl : validateValueOrConvertToUint8Array left = .ok lu)
    (hr : validateValueOrConvertToUint8Array right = .ok ru)
    (hlen : lu.length ≠ ru.length ∨ lu.length = 0 ∨ ru.length = 0)
    (h1 : truthyStrOpt options.keyAlgorithm = true →
      validateAlgorithm (options.keyAlgorithm.getD "") = .ok ())
    (h2 : truthyStrOpt options.hmacAlgorithm = true →
      validateAlgorithm (options.hmacAlgorithm.getD "") = .ok ()) :
    (webTimingSafeEqual left right options).1 = .ok false ∧
    ∀ op ∈ (webTimingSafeEqual left right options).2,
      op.isSign = false ∧ op.isImportKey = false := by
  have hcond : lu.length ≠ ru.length ∨ lu.length = 0 := by
    rcases hlen with h | h | h
    · exact Or.inl h
    · exact Or.inr h
    · by_cases he : lu.length = ru.length
      · refine Or.inr ?_
        rw [he]
        exact h
      · exact Or.inl he
  rw [webTimingSafeEqual_shortcircuit left right options lu ru hl hr hcond h1 h2]
  refine ⟨rfl, ?_⟩
  intro op hop
  simp only [resolveSecretKey_trace] at hop
  by_cases hb : (options.secretKey.getD .undefined).truthy = true
  · rw [if_pos hb] at hop
    cases hop
  · rw [if_neg hb] at hop
    rw [List.mem_singleton] at hop
    subst hop
    exact ⟨rfl, rfl⟩

/-- C3 witness: the spec's own example `compare([1,2,3], [1,2])` returns
`false` with no HMAC invocation; `compare("", "")` likewise returns
`false`. -/
theorem length_mismatch_returns_false_witness :
    validateValueOrConvertToUint8Array (.bytes [1, 2, 3]) = .ok [1, 2, 3] ∧
    ([1, 2, 3] : List Nat).length ≠ ([1, 2] : List Nat).length ∧
    ((webTimingSafeEqual (.bytes [1, 2, 3]) (.bytes [1, 2]) {}).1 = .ok false ∧
      ∀ op ∈ (webTimingSafeEqual (.bytes [1, 2, 3]) (.bytes [1, 2]) {}).2,
        op.isSign = false ∧ op.isImportKey = false) ∧
    (webTimingSafeEqual (.str "") (.str "") {}).1 = .ok false := by
  refine ⟨rfl, by decide, ?_, by decide⟩
  exact length_mismatch_returns_false (.bytes [1, 2, 3]) (.bytes [1, 2]) {}
    [1, 2, 3] [1, 2] rfl rfl (Or.inl (by decide))
    (fun h => absurd h (by decide)) (fun h => absurd h (by decide))

/-- C2 (the claim as stated fails): with an invalid left input and no
supplied secret key, the call does fail with `InvalidInputType`, but the
trace already contains a provider `generateKey` call — key resolution
(src lines 43–48) runs before input validation (src lines 51–52), so
cryptographic work is performed on the failing path. -/
theorem invalid_input_performs_keygen_counterexample :
    (webTimingSafeEqual (.number 42) (.str "a") {}).1 = .error .invalidInputType ∧
    (webTimingSafeEqual (.number 42) (.str "a") {}).2 =
      [.generateKey .SHA256 (some 512)] :=
  ⟨by decide, by decide⟩

/-- C2 as amended: with well-formed (or absent) algorithm options and an
invalid comparison input, the call fails with `InvalidInputType` and
performs no key import and no signing; however, when `options.secretKey`
is absent or falsy, one provider key generation has already run before
the failure (none runs when a truthy key is supplied). -/
theorem invalid_input_fails_before_import_or_sign (left right : JsValue) (options : Options)
    (hinv : validateValueOrConvertToUint8Array left = .error .invalidInputType ∨
      validateValueOrConvertToUint8Array right = .error .invalidInputType)
    (h1 : truthyStrOpt options.keyAlgorithm = true →
      validateAlgorithm (options.keyAlgorithm.getD "") = .ok ())
    (h2 : truthyStrOpt options.hmacAlgorithm = true →
      validateAlgorithm (options.hmacAlgorithm.getD "") = .ok ()) :
    (webTimingSafeEqual left right options).1 = .error .invalidInputType ∧
    (webTimingSafeEqual left right options).2 =
      (if (options.secretKey.getD .undefined).truthy then []
       else [.generateKey .SHA256 (some 512)]) := by
  obtain ⟨sk, kops, hres⟩ := resolveSecretKey_ok options
  have e1 := algOptValidation_ok options.keyAlgorithm h1
  have e2 := algOptValidation_ok options.hmacAlgorithm h2
  have htrace : kops =
      if (options.secretKey.getD .undefined).truthy then []
      else [.generateKey .SHA256 (some 512)] := by
    have ht := resolveSecretKey_trace options
    rw [hres] at ht
    exact ht
  cases hL : validateValueOrConvertToUint8Array left with
  | error e =>
    have he := validate_error_invalidInputType hL
    subst he
    have hrun : webTimingSafeEqual left right options =
        (.error .invalidInputType, kops) := by
      simp only [webTimingSafeEqual, e1, e2, hres, hL]
    rw [hrun, ← htrace]
    exact ⟨rfl, rfl⟩
  | ok lu =>
    rcases hinv with hbad | hbad
    · rw [hL] at hbad
      cases hbad
    · cases hR : validateValueOrConvertToUint8Array right with
      | error e =>
        have he := validate_error_invalidInputType hR
        subst he
        have hrun : webTimingSafeEqual left right options =
            (.error .invalidInputType, kops) := by
          simp only [webTimingSafeEqual, e1, e2, hres, hL, hR]
        rw [hrun, ← htrace]
        exact ⟨rfl, rfl⟩
      | ok ru =>
        rw [hR] at hbad
        cases hbad

/-- C2 witness: a number as the left input under default options. -/
theorem invalid_input_fails_before_import_or_sign_witness :
    validateValueOrConvertToUint8Array (.number 42) = .error .invalidInputType ∧
    (webTimingSafeEqual (.number 42) (.str "a") {}).1 = .error .invalidInputType ∧
    (webTimingSafeEqual (.number 42) (.str "a") {}).2 =
      (if ((({} : Options).secretKey.getD .undefined).truthy) then []
       else [.generateKey .SHA256 (some 512)]) := by
  obtain ⟨ha, hb⟩ := invalid_input_fails_before_import_or_sign (.number 42) (.str "a") {}
    (Or.inl rfl) (fun h => absurd h (by decide)) (fun h => absurd h (by decide))
  exact ⟨rfl, ha, hb⟩

/-- C4: whenever both sides are the same non-empty text or byte value
(and the options are well formed: valid-or-absent algorithms, a usable or
absent secret key), the two HMAC digests are computed under the one
resolved key over identical bytes, so the final `===` on the hex strings
yields `true`. -/
theorem compare_refl_true (a : JsValue) (options : Options) (u : List Nat)
    (hu : validateValueOrConvertToUint8Array a = .ok u) (hne : u ≠ [])
    (h1 : truthyStrOpt options.keyAlgorithm = true →
      validateAlgorithm (options.keyAlgorithm.getD "") = .ok ())
    (h2 : truthyStrOpt options.hmacAlgorithm = true →
      validateAlgorithm (options.hmacAlgorithm.getD "") = .ok ())
    (h3 : (options.secretKey.getD .undefined).truthy = true →
      usableHmacKey (options.secretKey.getD .undefined) = true) :
    (webTimingSafeEqual a a options).1 = .ok true := by
  have e1 := algOptValidation_ok options.keyAlgorithm h1
  have e2 := algOptValidation_ok options.hmacAlgorithm h2
  obtain ⟨sk, kops, hres, hsku⟩ :
      ∃ sk kops, resolveSecretKey options = (.ok sk, kops) ∧ usableHmacKey sk = true := by
    cases hb : (options.secretKey.getD .undefined).truthy
    · exact ⟨_, _, resolveSecretKey_untruthy options hb, rfl⟩
    · exact ⟨_, _, resolveSecretKey_truthy options hb, h3 hb⟩
  obtain ⟨a2, ha2⟩ : ∃ a2, Alg.ofString (hmacAlgArg options) = some a2 := by
    unfold hmacAlgArg
    by_cases ht : truthyStrOpt options.hmacAlgorithm = true
    · rw [if_pos ht]
      exact ofString_some_of_validate (h2 ht)
    · rw [if_neg ht]
      exact ⟨.SHA256, rfl⟩
  obtain ⟨s, ops, hh⟩ := hmac_ok sk u (hmacAlgArg options) a2 ha2 hsku
  have hlen : ¬(u.length ≠ u.length ∨ u.length = 0) := by
    push_neg
    exact ⟨rfl, fun h => hne (List.length_eq_zero.mp h)⟩
  simp only [webTimingSafeEqual, e1, e2, hres, hu]
  rw [if_neg hlen]
  simp only [hh]
  simp

/-- C4 witness: the spec's end-to-end example
`compare("testString1", "testString1")`. -/
theorem compare_refl_true_witness :
    validateValueOrConvertToUint8Array (.str "testString1") = .ok (utf8Encode "testString1") ∧
    utf8Encode "testString1" ≠ [] ∧
    (webTimingSafeEqual (.str "testString1") (.str "testString1") {}).1 = .ok true :=
  ⟨rfl, by decide,
    compare_refl_true (.str "testString1") {} (utf8Encode "testString1") rfl (by decide)
      (fun h => absurd h (by decide)) (fun h => absurd h (by decide))
      (fun h => absurd h (by decide))⟩
